import Mathlib

/-!
Shallow embedding of the key-derivation core in `sqrl/crypto.py`.

External cryptographic primitives (SHA-256 from libsodium, the scrypt-family
KDF `crypto_pwhash_scryptsalsa208sha256_ll`, the seeded Ed25519 keypair
generator, the Mersenne-Twister and system RNGs) are abstracted as function
parameters; everything the repository itself computes (hash-chain
accumulation, the stretching loop, the nonce stream, the key hierarchy, the
signing wrappers) is embedded as executable Lean functions that mirror the
Python statement by statement.  Python calls that can raise are embedded with
`Option`/`Except` results.
-/

namespace Sqrl

/-- Byte strings are lists of byte values (each `< 256` for real data). -/
abbrev Bytes := List Nat

/-- Modelled from the spec: the `sqrl` package constant `KEY_BYTES` lives
outside `src/`; the spec fixes every key at 32 bytes and `enhash` hard-codes
32 in its final `to_bytes` call, so `KEY_BYTES = 32`. -/
def KEY_BYTES : Nat := 32

/-- Little-endian value of a byte string, as in `int.from_bytes(b, 'little')`. -/
def leNat : Bytes → Nat
  | [] => 0
  | b :: bs => b + 256 * leNat bs

/-- Little-endian byte string of a value: `len` bytes, least significant
first (total encoder; callers that can overflow go through `toBytesLE`). -/
def natLE : Nat → Nat → Bytes
  | 0, _ => []
  | l + 1, n => n % 256 :: natLE l (n / 256)

/-- Python `n.to_bytes(len, 'little')` for a natural `n`: raises
`OverflowError` (modelled as `none`) unless `n < 2 ^ (8 * len)`. -/
def toBytesLE (len n : Nat) : Option Bytes :=
  if n < 2 ^ (8 * len) then some (natLE len n) else none

/-- Python `c.to_bytes(len, 'little')` for an arbitrary integer `c`: raises
`OverflowError` (modelled as `none`) when `c` is negative or too large. -/
def intToBytesLE (len : Nat) (c : Int) : Option Bytes :=
  if 0 ≤ c ∧ c < 2 ^ (8 * len) then some (natLE len c.toNat) else none

/-- `sha256sum(b, bytes=32)` from the source: the 32-byte SHA-256 digest of
`b` truncated to its first `n` bytes (`out.raw[:bytes]`).  The hash itself is
the external libsodium primitive, abstracted as the argument `sha`. -/
def sha256sum (sha : Bytes → Bytes) (b : Bytes) (n : Nat := 32) : Bytes :=
  (sha b).take n

/-- State of the `Nonce` class, the `(_bytes, _count, _prefix)` slots.  The
counter is an arbitrary Python integer, hence `Int`; `pfx` holds `_prefix`. -/
structure NonceState where
  bytes : Nat
  count : Int
  pfx : Bytes

/-- `Nonce.__init__`: default width is `crypto_secretbox_NONCEBYTES = 24`,
default start is 1, and the 16 random bytes `rnd16` drawn from the process
RNG are used only when no explicit third slot value is supplied. -/
def mkNonce (rnd16 : Bytes) (bytes : Nat := 24) (start : Int := 1)
    (pfx : Option Bytes := none) : NonceState :=
  ⟨bytes, start, pfx.getD rnd16⟩

/-- `Nonce.__next__`: bump the counter by one, hash the pre-bump counter
value appended to the one-time random first slot, truncate to the nonce
width.  A `none` result models the `OverflowError` raised by
`c.to_bytes(self._bytes, 'little')` when the counter no longer fits. -/
def Nonce.next (sha : Bytes → Bytes) (s : NonceState) : Option (Bytes × NonceState) :=
  (intToBytesLE s.bytes s.count).map fun cb =>
    (sha256sum sha (s.pfx ++ cb) s.bytes, ⟨s.bytes, s.count + 1, s.pfx⟩)

/-- Loop of `enhash`: `for i in range(1, iterations)` re-hashes `u` in place
and XORs its little-endian value into `acc`; the first argument counts the
remaining passes, i.e. `iterations - 1` on entry. -/
def enhashLoop (sha : Bytes → Bytes) : Nat → Bytes → Nat → Nat
  | 0, _, acc => acc
  | n + 1, u, acc =>
    let u1 := sha u
    enhashLoop sha n u1 (acc ^^^ leNat u1)

/-- `enhash(data, iterations=16)`: assert the 32-byte width (a failed assert
is modelled as `none`), hash once, then XOR-accumulate `iterations - 1`
re-hash rounds and re-encode the accumulator as 32 little-endian bytes. -/
def enhash (sha : Bytes → Bytes) (data : Bytes) (iterations : Nat := 16) : Option Bytes :=
  if data.length = KEY_BYTES then
    let u := sha data
    toBytesLE 32 (enhashLoop sha (iterations - 1) u (leNat u))
  else none

/-- Round digests of the spec's description of HashChain: a first hash of the
input, then repeated re-hashing of the previous digest. -/
def hashIter (sha : Bytes → Bytes) (data : Bytes) : Nat → Bytes
  | 0 => sha data
  | n + 1 => sha (hashIter sha data n)

/-- XOR accumulator over the first `n` HashChain round digests, each
interpreted as a little-endian integer. -/
def enhashSpecAcc (sha : Bytes → Bytes) (data : Bytes) : Nat → Nat
  | 0 => 0
  | n + 1 => enhashSpecAcc sha data n ^^^ leNat (hashIter sha data n)

/-- HashChain as the spec words it (reference iteration for claim C3): one
first hash plus `iterations - 1` further re-hash rounds, all round outputs
XOR-accumulated as little-endian integers and re-encoded little-endian. -/
def enhashSpec (sha : Bytes → Bytes) (data : Bytes) (iterations : Nat := 16) : Option Bytes :=
  if data.length = KEY_BYTES then
    toBytesLE 32 (enhashSpecAcc sha data (max 1 iterations))
  else none

/-- Loop of `enscrypt` in the `seconds = 0` case: there `end = start` and
`process_time() < end` is false for a monotone clock, so
`while i < iterations or process_time() < end` is driven by the iteration
count alone and runs `iterations - i` more passes, which the first argument
counts.  Each pass invokes the KDF once with the ORIGINAL password and the
previous digest `out` as salt, XORs the fresh digest into `acc`, and bumps
`i` together with the KDF-invocation counter `calls`. -/
def enscryptLoop (F : Bytes → Bytes → Bytes) (passwd : Bytes) :
    Nat → Bytes → Nat → Nat → Nat → Nat × Nat × Nat
  | 0, _, acc, i, calls => (i, acc, calls)
  | rem + 1, out, acc, i, calls =>
    let out1 := F passwd out
    enscryptLoop F passwd rem out1 (acc ^^^ leNat out1) (i + 1) (calls + 1)

/-- Full loop state of `enscrypt` with `seconds = 0`: final `i`, final
accumulator, and the total number of KDF invocations (the call before the
loop plus one per loop pass).  `scrypt N p s` abstracts
`crypto_pwhash_scryptsalsa208sha256_ll(p, s, N, r=256, p=1, outlen=32)`
with `N = 1 << logN`. -/
def enscryptRun (scrypt : Nat → Bytes → Bytes → Bytes) (passwd salt : Bytes)
    (logN iterations : Nat) : Nat × Nat × Nat :=
  let N := 2 ^ logN
  let out := scrypt N passwd salt
  enscryptLoop (scrypt N) passwd (iterations - 1) out (leNat out) 1 1

/-- `enscrypt(passwd, salt, logN, iterations)` with `seconds = 0`: the pair
`(iterations performed, derived key)`.  The elapsed-seconds component of the
source's triple is informational wall-clock data and is not modelled; a
`none` key models the final `OverflowError` of `acc.to_bytes`. -/
def enscrypt (scrypt : Nat → Bytes → Bytes → Bytes) (passwd salt : Bytes)
    (logN iterations : Nat) : Nat × Option Bytes :=
  let r := enscryptRun scrypt passwd salt logN iterations
  (r.1, toBytesLE KEY_BYTES r.2.1)

/-- Number of KDF invocations `enscrypt` performs (with `seconds = 0`). -/
def enscryptKdfCalls (scrypt : Nat → Bytes → Bytes → Bytes) (passwd salt : Bytes)
    (logN iterations : Nat) : Nat :=
  (enscryptRun scrypt passwd salt logN iterations).2.2

/-- Modelled from the spec sentence behind claim C1: additional rounds re-run
the KDF with the PREVIOUS DIGEST as both the password and the salt input. -/
def enscryptC1Loop (F : Bytes → Bytes → Bytes) : Nat → Bytes → Nat → Nat → Nat × Nat
  | 0, _, acc, i => (i, acc)
  | rem + 1, out, acc, i =>
    let out1 := F out out
    enscryptC1Loop F rem out1 (acc ^^^ leNat out1) (i + 1)

/-- Modelled from the spec: MemoryHardStretch as claim C1 words it — first
KDF call over `(passphrase, salt)`, every later round over
`(previous digest, previous digest)`, XOR-accumulated. -/
def enscryptSpecC1 (scrypt : Nat → Bytes → Bytes → Bytes) (passwd salt : Bytes)
    (logN iterations : Nat) : Nat × Option Bytes :=
  let N := 2 ^ logN
  let out := scrypt N passwd salt
  let r := enscryptC1Loop (scrypt N) (iterations - 1) out (leNat out) 1
  (r.1, toBytesLE KEY_BYTES r.2)

/-- Digest of round `n` of `enscrypt`: round 0 runs the KDF over
`(passwd, salt)`, each later round over `(passwd, previous digest)`. -/
def enscryptDigest (F : Bytes → Bytes → Bytes) (passwd salt : Bytes) : Nat → Bytes
  | 0 => F passwd salt
  | n + 1 => F passwd (enscryptDigest F passwd salt n)

/-- XOR accumulator over the first `n` round digests of `enscrypt`. -/
def enscryptAcc (F : Bytes → Bytes → Bytes) (passwd salt : Bytes) : Nat → Nat
  | 0 => 0
  | n + 1 => enscryptAcc F passwd salt n ^^^ leNat (enscryptDigest F passwd salt n)

/-- Abstract pseudorandom generator state behind `KeyGen._rng`: `draws k` is
the raw value produced by the k-th method call on the generator, and
`getrandbits`/`randrange` reduce it to the requested range.  A seeded
`random.Random` is a deterministic function of its seed, a `SystemRandom` is
a fresh entropy stream per instance. -/
structure PRNG where
  draws : Nat → Nat
  pos : Nat

/-- `getrandbits(n)`: an `n`-bit value, one draw consumed. -/
def PRNG.getrandbits (r : PRNG) (n : Nat) : Nat × PRNG :=
  (r.draws r.pos % 2 ^ n, ⟨r.draws, r.pos + 1⟩)

/-- `randrange(n)`: a value in `[0, n)`, one draw consumed. -/
def PRNG.randrange (r : PRNG) (n : Nat) : Nat × PRNG :=
  (r.draws r.pos % n, ⟨r.draws, r.pos + 1⟩)

/-- `KeyGen.__init__(seed)`: Python tests `if seed:`, so the deterministic
`random.Random(seed)` stream (a function `seeded` of the seed alone) is
selected only for a truthy seed; a zero (or omitted) seed selects
`random.SystemRandom()`, modelled by the per-instance entropy stream `sys`. -/
def mkKeyGen (seeded : Nat → Nat → Nat) (sys : Nat → Nat) (seed : Nat) : PRNG :=
  if seed = 0 then ⟨sys, 0⟩ else ⟨seeded seed, 0⟩

/-- Exceptional outcomes the spec's error model names for this module. -/
inductive CryptoError where
  | invalidSignature
  | unimplementedOperation
  | nameError

/-- One call in a replayed `KeyGen` usage sequence. -/
inductive KGCall where
  | newIUK
  | imk (x : Bytes)
  | ilk (x : Bytes)
  | lkey (x : Bytes)

namespace KeyGen

/-- `randbytes(count)`: `getrandbits(count*8).to_bytes(count, 'little')`; the
value is below `2 ^ (8 * count)`, so the encoding cannot overflow. -/
def randbytes (r : PRNG) (count : Nat) : Bytes × PRNG :=
  let p := r.getrandbits (count * 8)
  (natLE count p.1, p.2)

/-- `rescue_code()`: six sequential `randrange(10000)` draws rendered in
decimal (leading zeroes are NOT padded) and joined by the dash character. -/
def rescue_code (r : PRNG) : String × PRNG :=
  let p1 := r.randrange 10000
  let p2 := p1.2.randrange 10000
  let p3 := p2.2.randrange 10000
  let p4 := p3.2.randrange 10000
  let p5 := p4.2.randrange 10000
  let p6 := p5.2.randrange 10000
  (String.intercalate ("-")
    [toString p1.1, toString p2.1, toString p3.1,
     toString p4.1, toString p5.1, toString p6.1], p6.2)

/-- `identity_unlock_key()`: 32 random bytes from the configured RNG. -/
def identity_unlock_key (r : PRNG) : Bytes × PRNG :=
  randbytes r KEY_BYTES

/-- `identity_master_key(iuk) = enhash(iuk)`. -/
def identity_master_key (sha : Bytes → Bytes) (iuk : Bytes) : Option Bytes :=
  enhash sha iuk

/-- `identity_lock_key(iuk)`: public half of the keypair seeded by `iuk`;
`kp` abstracts `crypto_sign_seed_keypair`, returning `(public, secret)`. -/
def identity_lock_key (kp : Bytes → Bytes × Bytes) (iuk : Bytes) : Bytes :=
  (kp iuk).1

/-- `public_key(sk)`: public half of the keypair seeded by `sk`. -/
def public_key (kp : Bytes → Bytes × Bytes) (sk : Bytes) : Bytes :=
  (kp sk).1

/-- `local_key(mk) = enhash(mk)`. -/
def local_key (sha : Bytes → Bytes) (mk : Bytes) : Option Bytes :=
  enhash sha mk

/-- `random_lock_key()`: 32 random bytes from the configured RNG. -/
def random_lock_key (r : PRNG) : Bytes × PRNG :=
  randbytes r KEY_BYTES

/-- `verify_unlock_key(ilk, rlk)`: the body ignores `ilk` and returns
`crypto_sign_seed_keypair(rlk)[0]`, despite the docstring's DHKA remark. -/
def verify_unlock_key (kp : Bytes → Bytes × Bytes) (ilk rlk : Bytes) : Bytes :=
  (kp rlk).1

/-- `server_unlock_key(rlk) = crypto_sign_seed_keypair(rlk)[0]`. -/
def server_unlock_key (kp : Bytes → Bytes × Bytes) (rlk : Bytes) : Bytes :=
  (kp rlk).1

/-- `unlock_request_signing_key(suk, iuk)`: the body is only a docstring, so
the call completes normally and returns `None` — no computation is performed
and no error of any kind is raised. -/
def unlock_request_signing_key (suk iuk : Bytes) : Except CryptoError (Option Bytes) :=
  Except.ok none

/-- Replay a sequence of hierarchy calls against one `KeyGen` instance,
collecting each call's result; entropy-consuming calls advance the RNG,
pure derivations do not. -/
def run (sha : Bytes → Bytes) (kp : Bytes → Bytes × Bytes) :
    PRNG → List KGCall → List (Option Bytes)
  | _, [] => []
  | r, KGCall.newIUK :: cs =>
    let p := identity_unlock_key r
    some p.1 :: run sha kp p.2 cs
  | r, KGCall.imk x :: cs => identity_master_key sha x :: run sha kp r cs
  | r, KGCall.ilk x :: cs => some (identity_lock_key kp x) :: run sha kp r cs
  | r, KGCall.lkey x :: cs => local_key sha x :: run sha kp r cs

end KeyGen

/-- `sign(message, sk, pk)`: detached signature over `message` with the
64-byte `sk + pk` secret-key convention; the external primitive
`crypto_sign_detached` is abstracted as `sPrim`. -/
def sign (sPrim : Bytes → Bytes → Bytes) (message sk pk : Bytes) : Bytes :=
  sPrim message (sk ++ pk)

/-- `verify(sig, msg, pk)`: the body is `crypto_sign_verify_detached(message, pk)`,
but the name `message` is bound nowhere — the parameters are `sig`, `msg`,
`pk` and the module has no such global — so every call raises `NameError`
before any signature check can happen. -/
def verify (sig msg pk : Bytes) : Except CryptoError Unit :=
  Except.error CryptoError.nameError

/-- Concrete hash stand-in used by witnesses and counterexamples. -/
def demoSha (b : Bytes) : Bytes := List.replicate 32 (leNat b % 256)

/-- Concrete seeded-keypair stand-in used by witnesses. -/
def demoKeypair (s : Bytes) : Bytes × Bytes := (s, s)

/-- Concrete deterministic seeded-stream stand-in used by witnesses. -/
def demoSeeded (seed k : Nat) : Nat := seed + k

/-- Concrete KDF stand-in used by witnesses. -/
def demoKdf (N : Nat) (p s : Bytes) : Bytes := p ++ s ++ [N % 256]

/-- Concrete KDF stand-in whose output depends only on the password length;
it separates the code's chaining discipline from the one claim C1 words. -/
def cxKdf (N : Nat) (p s : Bytes) : Bytes := [p.length % 256]

/-- The all-zero 32-byte key. -/
def zeros32 : Bytes := List.replicate 32 0

/-- Number of decimal digits in a string. -/
def countDigits (s : String) : Nat := (s.data.filter Char.isDigit).length

/-- Arithmetic bridge between the loop count `1 + (n - 1)` of the embeddings
and the spec's `max(1, n)`. -/
theorem one_add_sub_one (n : Nat) : 1 + (n - 1) = max 1 n := by omega

/-- The stretching loop adds one pass to `i` and to the invocation counter
for each unit of remaining fuel, independently of the data being hashed. -/
theorem enscryptLoop_count (F : Bytes → Bytes → Bytes) (passwd : Bytes) :
    ∀ (rem : Nat) (out : Bytes) (acc i calls : Nat),
      (enscryptLoop F passwd rem out acc i calls).1 = i + rem ∧
      (enscryptLoop F passwd rem out acc i calls).2.2 = calls + rem := by
  intro rem
  induction rem with
  | zero => intro out acc i calls; exact ⟨rfl, rfl⟩
  | succ n ih =>
    intro out acc i calls
    simp only [enscryptLoop]
    constructor
    · rw [(ih _ _ _ _).1]; omega
    · rw [(ih _ _ _ _).2]; omega

/-- Invariant of the stretching loop: entering pass `j + 1` with the round-`j`
digest and the XOR of the first `j + 1` digests yields the XOR of the first
`j + 1 + rem` digests. -/
theorem enscryptLoop_digest (F : Bytes → Bytes → Bytes) (passwd salt : Bytes) :
    ∀ (rem j calls : Nat),
      enscryptLoop F passwd rem (enscryptDigest F passwd salt j)
          (enscryptAcc F passwd salt (j + 1)) (j + 1) calls =
        (j + 1 + rem, enscryptAcc F passwd salt (j + 1 + rem), calls + rem) := by
  intro rem
  induction rem with
  | zero => intro j calls; rfl
  | succ n ih =>
    intro j calls
    simp only [enscryptLoop]
    have h1 : j + 1 + (n + 1) = j + 1 + 1 + n := by omega
    have h2 : calls + (n + 1) = calls + 1 + n := by omega
    rw [h1, h2]
    exact ih (j + 1) (calls + 1)

/-- Invariant of the hash-chain loop: entering with the round-`k` digest and
the XOR of the first `k + 1` digests yields the XOR of the first `k + 1 + n`
digests. -/
theorem enhashLoop_closed (sha : Bytes → Bytes) (data : Bytes) :
    ∀ (n k : Nat),
      enhashLoop sha n (hashIter sha data k) (enhashSpecAcc sha data (k + 1)) =
        enhashSpecAcc sha data (k + 1 + n) := by
  intro n
  induction n with
  | zero => intro k; rfl
  | succ m ih =>
    intro k
    simp only [enhashLoop]
    have h1 : k + 1 + (m + 1) = k + 1 + 1 + m := by omega
    rw [h1]
    exact ih (k + 1)

/-- Claim C1 counterexample: the code re-runs each additional round with the
ORIGINAL password (`_kdf(passwd, pwlen, out, outlen, ...)`), not with the
previous digest as both password and salt as the claim states; a KDF whose
output depends only on its password input separates the two disciplines at
`passwd = [7, 7]`, `salt = [0]`, `logN = 0`, `iterations = 2`. -/
theorem enscrypt_c1_counterexample :
    enscrypt cxKdf [7, 7] [0] 0 2 ≠ enscryptSpecC1 cxKdf [7, 7] [0] 0 2 := by
  decide

/-- Claim C1 (amended): after the first KDF invocation over
`(passphrase, salt)`, every additional round re-runs the KDF with the
original passphrase as password and the previous round's digest as salt,
XOR-accumulating each round's little-endian output; the returned key encodes
the XOR of the first `max 1 iterations` round digests. -/
theorem enscrypt_chain_closed_form (scrypt : Nat → Bytes → Bytes → Bytes)
    (passwd salt : Bytes) (logN iterations : Nat) :
    enscrypt scrypt passwd salt logN iterations =
      (max 1 iterations,
        toBytesLE KEY_BYTES
          (enscryptAcc (scrypt (2 ^ logN)) passwd salt (max 1 iterations))) := by
  have h := enscryptLoop_digest (scrypt (2 ^ logN)) passwd salt (iterations - 1) 0 1
  have e1 : enscryptDigest (scrypt (2 ^ logN)) passwd salt 0 =
      scrypt (2 ^ logN) passwd salt := rfl
  have e2 : enscryptAcc (scrypt (2 ^ logN)) passwd salt 1 =
      leNat (scrypt (2 ^ logN) passwd salt) := by
    simp [enscryptAcc, enscryptDigest, Nat.zero_xor]
  simp only [Nat.zero_add] at h
  rw [e1, e2] at h
  have hm : 1 + (iterations - 1) = max 1 iterations := one_add_sub_one iterations
  rw [hm] at h
  simp only [enscrypt, enscryptRun]
  rw [h]

/-- Claim C2: with `seconds = 0`, `enscrypt` performs exactly
`max 1 iterations` KDF invocations, returns that same count as its first
component (hence exactly `iterations` whenever `iterations ≥ 1`), and is a
deterministic function of its inputs. -/
theorem enscrypt_seconds0_rounds (scrypt : Nat → Bytes → Bytes → Bytes)
    (passwd salt : Bytes) (logN iterations : Nat) :
    enscryptKdfCalls scrypt passwd salt logN iterations = max 1 iterations ∧
    (enscrypt scrypt passwd salt logN iterations).1 =
      enscryptKdfCalls scrypt passwd salt logN iterations ∧
    (1 ≤ iterations → (enscrypt scrypt passwd salt logN iterations).1 = iterations) ∧
    (∀ p2 s2 : Bytes, p2 = passwd → s2 = salt →
      enscrypt scrypt p2 s2 logN iterations = enscrypt scrypt passwd salt logN iterations) := by
  obtain ⟨h1, h2⟩ := enscryptLoop_count (scrypt (2 ^ logN)) passwd (iterations - 1)
    (scrypt (2 ^ logN) passwd salt) (leNat (scrypt (2 ^ logN) passwd salt)) 1 1
  have hK : enscryptKdfCalls scrypt passwd salt logN iterations = 1 + (iterations - 1) := by
    simp only [enscryptKdfCalls, enscryptRun]
    exact h2
  have hI : (enscrypt scrypt passwd salt logN iterations).1 = 1 + (iterations - 1) := by
    simp only [enscrypt, enscryptRun]
    exact h1
  refine ⟨?_, ?_, ?_, ?_⟩
  · rw [hK]; omega
  · rw [hK, hI]
  · intro hit; rw [hI]; omega
  · intro p2 s2 hp hs; rw [hp, hs]

/-- Claim C2 witness at `passwd = [3]`, `salt = [4]`, `logN = 0`,
`iterations = 2`. -/
theorem enscrypt_seconds0_rounds_witness :
    1 ≤ 2 ∧ (enscrypt demoKdf [3] [4] 0 2).1 = 2 :=
  ⟨by decide, (enscrypt_seconds0_rounds demoKdf [3] [4] 0 2).2.2.1 (by decide)⟩

/-- Claim C3: `enhash` computes exactly the spec's reference iteration — a
first hash, `iterations - 1` further re-hash rounds, XOR accumulation of all
round digests as little-endian integers, re-encoded as 32 little-endian
bytes — for every hash primitive, input and round count; in particular the
two agree on the all-zero 32-byte input at the default 16 rounds. -/
theorem enhash_refines_spec (sha : Bytes → Bytes) :
    (∀ (data : Bytes) (it : Nat), enhash sha data it = enhashSpec sha data it) ∧
    enhash sha zeros32 16 = enhashSpec sha zeros32 16 := by
  have main : ∀ (data : Bytes) (it : Nat), enhash sha data it = enhashSpec sha data it := by
    intro data it
    by_cases h : data.length = KEY_BYTES
    · simp only [enhash, enhashSpec, h, if_true, ite_true]
      have h0 := enhashLoop_closed sha data (it - 1) 0
      have e1 : hashIter sha data 0 = sha data := rfl
      have e2 : enhashSpecAcc sha data 1 = leNat (sha data) := by
        simp [enhashSpecAcc, hashIter, Nat.zero_xor]
      simp only [Nat.zero_add] at h0
      rw [e1, e2] at h0
      rw [h0, one_add_sub_one it]
    · simp [enhash, enhashSpec, h]
  exact ⟨main, main zeros32 16⟩

/-- Claim C4: a successful `next()` draw bumps the counter by exactly one,
returns the 32-byte hash of the one-time random first slot followed by the
little-endian encoding of the pre-bump counter, truncated to the nonce
width, and leaves the width and the random slot unchanged.  (The counter
hashed is the value the call observed; the increment is stored back.) -/
theorem nonce_next_spec (sha : Bytes → Bytes) (s : NonceState)
    (h0 : 0 ≤ s.count) (h1 : s.count < 2 ^ (8 * s.bytes)) :
    Nonce.next sha s =
      some ((sha (s.pfx ++ natLE s.bytes s.count.toNat)).take s.bytes,
        ⟨s.bytes, s.count + 1, s.pfx⟩) := by
  simp [Nonce.next, intToBytesLE, sha256sum, h0, h1]

/-- Claim C4 witness at width 1, counter 3, one-byte random slot. -/
theorem nonce_next_spec_witness :
    Nonce.next demoSha ⟨1, 3, [5]⟩ =
      some ((demoSha ([5] ++ natLE 1 ((3 : Int).toNat))).take 1, ⟨1, 3 + 1, [5]⟩) :=
  nonce_next_spec demoSha ⟨1, 3, [5]⟩ (by decide) (by decide)

/-- Claim C5 counterexample: Python's `if seed:` treats the seed 0 as absent,
so `KeyGen(0)` draws from `SystemRandom`; two instances built over different
system-entropy streams return different identity-unlock keys for the same
call sequence, refuting determinism for every supplied seed value. -/
theorem keygen_seed_zero_counterexample :
    KeyGen.run demoSha demoKeypair (mkKeyGen demoSeeded (fun _ => 0) 0) [KGCall.newIUK] ≠
      KeyGen.run demoSha demoKeypair (mkKeyGen demoSeeded (fun _ => 1) 0) [KGCall.newIUK] := by
  decide

/-- Claim C5 (amended): for every NONZERO (truthy) seed, two independently
constructed `KeyGen` instances — each with its own system-entropy stream —
produce identical results for the same sequence of `identity_unlock_key`,
`identity_master_key`, `identity_lock_key` and `local_key` calls, because
the constructor then selects the deterministic seeded stream. -/
theorem keygen_nonzero_seed_determinism (sha : Bytes → Bytes)
    (kp : Bytes → Bytes × Bytes) (seeded : Nat → Nat → Nat) (sys1 sys2 : Nat → Nat)
    (seed : Nat) (ops : List KGCall) (h : seed ≠ 0) :
    KeyGen.run sha kp (mkKeyGen seeded sys1 seed) ops =
      KeyGen.run sha kp (mkKeyGen seeded sys2 seed) ops := by
  simp [mkKeyGen, h]

/-- Claim C5 witness at seed 1 with two distinct system streams. -/
theorem keygen_nonzero_seed_determinism_witness :
    KeyGen.run demoSha demoKeypair (mkKeyGen demoSeeded (fun _ => 0) 1) [KGCall.newIUK] =
      KeyGen.run demoSha demoKeypair (mkKeyGen demoSeeded (fun _ => 1) 1) [KGCall.newIUK] :=
  keygen_nonzero_seed_determinism demoSha demoKeypair demoSeeded (fun _ => 0) (fun _ => 1) 1
    [KGCall.newIUK] (by decide)

/-- Claim C6: `verify_unlock_key(ilk, rlk)` and `server_unlock_key(rlk)` both
return the public half of the keypair seeded by `rlk`, and the former is
independent of its `ilk` argument. -/
theorem verify_unlock_key_ignores_ilk (kp : Bytes → Bytes × Bytes)
    (ilk1 ilk2 rlk : Bytes) :
    KeyGen.verify_unlock_key kp ilk1 rlk = (kp rlk).1 ∧
    KeyGen.server_unlock_key kp rlk = (kp rlk).1 ∧
    KeyGen.verify_unlock_key kp ilk1 rlk = KeyGen.verify_unlock_key kp ilk2 rlk :=
  ⟨rfl, rfl, rfl⟩

/-- Claim C7 (code bug evaluation): even for a genuinely signed message the
source's `verify` raises `NameError` — its body references the undefined
name `message` — so round-trip verification never succeeds and no
`InvalidSignature` discipline is reachable. -/
theorem verify_always_name_error (sPrim : Bytes → Bytes → Bytes) (msg sk pk : Bytes) :
    verify (sign sPrim msg sk pk) msg pk = Except.error CryptoError.nameError :=
  rfl

/-- Claim C8 (code bug evaluation): with an RNG whose next six
`randrange(10000)` draws all return 5, `rescue_code` returns six
dash-joined one-digit groups — 6 decimal digits in total, not the 24 the
docstring and the claim promise. -/
theorem rescue_code_short_digits :
    (KeyGen.rescue_code ⟨fun _ => 5, 0⟩).1 = "5-5-5-5-5-5" ∧
    countDigits (KeyGen.rescue_code ⟨fun _ => 5, 0⟩).1 = 6 := by
  decide

/-- Claim C9 counterexample: `unlock_request_signing_key` does not surface an
`UnimplementedOperation` error — its docstring-only body completes normally. -/
theorem unlock_request_signing_key_counterexample :
    KeyGen.unlock_request_signing_key [] [] ≠
      Except.error CryptoError.unimplementedOperation :=
  fun h => Except.noConfusion h

/-- Claim C9 (amended): `unlock_request_signing_key(suk, iuk)` performs no
key derivation and returns no key — it silently completes with Python's
`None` on every input, raising no error at all. -/
theorem unlock_request_signing_key_returns_none (suk iuk : Bytes) :
    KeyGen.unlock_request_signing_key suk iuk = Except.ok none :=
  rfl

/-- Claim C10: `next()` succeeds exactly when the current counter is a
nonnegative integer below `2 ^ (8 * b)`; otherwise `c.to_bytes` fails and the
call returns no value instead of silently wrapping the counter. -/
theorem nonce_next_isSome_iff (sha : Bytes → Bytes) (s : NonceState) :
    ((Nonce.next sha s).isSome = true ↔
      (0 ≤ s.count ∧ s.count < 2 ^ (8 * s.bytes))) ∧
    (Nonce.next sha s = none ↔
      ¬(0 ≤ s.count ∧ s.count < 2 ^ (8 * s.bytes))) := by
  by_cases h : 0 ≤ s.count ∧ s.count < 2 ^ (8 * s.bytes) <;>
    simp [Nonce.next, intToBytesLE, h]

end Sqrl
